import Mathlib

/-!
Verification of the inline attribute-access cache specified in spec.md.
The repository ships only the executable contract (the test suite
src/test_loadattr_inline_fastpath.py); the cache core itself is not part
of the source tree, so the definitions below are modelled from the spec
(sections 3-7) and checked against the properties the test suite states.
-/

deriving instance DecidableEq for Except

namespace LoadAttrCache

abbrev AttrName := String

/-- Runtime values carried by attributes. -/
inductive Value where
  | int : Int → Value
  | str : String → Value
  deriving DecidableEq, Repr

/-- Modelled from the spec: the error taxonomy of section 7.
AttributeNotFound is the failure for an absent attribute; hookError
stands for a fallback-lookup hook raising its own failure, which the
spec requires to be propagated verbatim. -/
inductive Failure where
  | attributeNotFound : Failure
  | hookError : Nat → Failure
  deriving DecidableEq, Repr

/-- Modelled from the spec: the programmable fallback-lookup hook a host
type may install (section 4.2 step 4), and the full interception hook the
test suite exercises.  A hook either returns a fixed value, returns a
value derived from the attribute name, or raises a failure. -/
inductive Hook where
  | returns : Value → Hook
  | returnsName : String → Hook
  | raises : Failure → Hook
  deriving DecidableEq, Repr

def runHook : Hook → AttrName → Except Failure Value
  | .returns v, _ => .ok v
  | .returnsName pre, name => .ok (.str (pre ++ name))
  | .raises f, _ => .error f

/-- Modelled from the spec: an entry of a class dict.  A data descriptor
defines both read and write hooks, a non-data descriptor only a read
hook, and plain is an ordinary class attribute.  Descriptor handles are
modelled as the value their read hook produces. -/
inductive ClassEntry where
  | dataDescr : Value → ClassEntry
  | nonDataDescr : Value → ClassEntry
  | plain : Value → ClassEntry
  deriving DecidableEq, Repr

/-- Modelled from the spec: the instance-storage layout of a type,
either a fixed slot layout (names at fixed offsets) or an instance
dictionary. -/
inductive Layout where
  | slotted : List AttrName → Layout
  | dicted : Layout
  deriving DecidableEq, Repr

/-- Modelled from the spec: the type descriptor of section 3 — a version
tag (0 is the reserved never-cache sentinel), the MRO as a list of
generation ids (the type itself first), the class dict, the storage
layout and the two host hooks. -/
structure TypeInfo where
  versionTag : Nat
  mro : List Nat
  dict : List (AttrName × ClassEntry)
  layout : Layout
  getattributeHook : Option Hook := none
  getattrHook : Option Hook := none
  deriving DecidableEq, Repr

/-- Modelled from the spec: the host object model.  Live types are an
association list from generation id to type descriptor; nextGen is the
monotonically increasing generation counter, so ids are never reused
even after a type is destroyed (section 9). -/
structure Env where
  types : List (Nat × TypeInfo)
  nextGen : Nat
  deriving DecidableEq, Repr

def lookupType (env : Env) (g : Nat) : Option TypeInfo :=
  List.lookup g env.types

/-- Modelled from the spec: every type gets a fresh, never reused
generation id at creation. -/
def createType (env : Env) (t : TypeInfo) : Env × Nat :=
  ({ types := (env.nextGen, t) :: env.types, nextGen := env.nextGen + 1 }, env.nextGen)

/-- Modelled from the spec: a type may be destroyed while cache entries
still reference its identity token; the token is simply removed from the
live map and never handed out again. -/
def destroyType (env : Env) (g : Nat) : Env :=
  { env with types := env.types.filter (fun p => p.fst != g) }

/-- Well-formedness of the host object model: every live generation id
was allocated below the generation counter. -/
def EnvWF (env : Env) : Prop :=
  ∀ p ∈ env.types, p.fst < env.nextGen

/-- Modelled from the spec: the finite version-tag space of section 4.1.
When the space is exhausted the tag is pinned to 0 and never revived. -/
def TAG_LIMIT : Nat := 4294967296

/-- Modelled from the spec: advancing a version tag.  A tag of 0 stays
pinned at 0; reaching the end of the tag space pins the tag to 0. -/
def bumpTag (n : Nat) : Nat :=
  if n = 0 then 0 else if n + 1 = TAG_LIMIT then 0 else n + 1

def mapTypes (env : Env) (f : Nat → TypeInfo → TypeInfo) : Env :=
  { env with types := env.types.map (fun p => (p.fst, f p.fst p.snd)) }

def bumpType (base : Nat) (g : Nat) (t : TypeInfo) : TypeInfo :=
  if g = base ∨ base ∈ t.mro then { t with versionTag := bumpTag t.versionTag } else t

/-- Modelled from the spec: VersionTagRegistry.bump of section 4.1 —
mutating a type reassigns its tag and, recursively, the tag of every
live derived type, realised here as bumping every live type whose MRO
contains the mutated type (that is exactly the set of types whose
MRO-based resolution may change). -/
def bump (env : Env) (base : Nat) : Env :=
  mapTypes env (fun g t => bumpType base g t)

/-- Modelled from the spec: the host-triggered invalidation hook of
section 6, which calls VersionTagRegistry.bump. -/
def invalidateType (env : Env) (g : Nat) : Env := bump env g

/-- Modelled from the spec: attribute assignment on a type — the class
dict gains the entry and the type (with every derived type) is bumped,
as section 4.1 requires for any attribute-resolution-affecting
mutation. -/
def setTypeAttr (env : Env) (g : Nat) (name : AttrName) (ce : ClassEntry) : Env :=
  bump (mapTypes env (fun h t => if h = g then { t with dict := (name, ce) :: t.dict } else t)) g

/-- Instances of host types: a generation id naming the type, slot
storage by offset and an instance dictionary (only the one selected by
the type's layout is ever consulted). -/
structure Obj where
  typeId : Nat
  slots : List (Option Value)
  dict : List (AttrName × Value)
  deriving DecidableEq, Repr

/-- Modelled from the spec: the ResolutionKind tagged variant of
section 3. -/
inductive ResolutionKind where
  | instanceSlot : Nat → ResolutionKind
  | instanceDict : ResolutionKind
  | dataDescriptor : Value → ResolutionKind
  | nonDataDescriptor : Value → ResolutionKind
  | classAttribute : Value → ResolutionKind
  | absent : ResolutionKind
  deriving DecidableEq, Repr

/-- Walk the MRO front to back and return the first class-dict entry
found for the name, consulting the live types of the host model. -/
def mroLookup (env : Env) (mro : List Nat) (name : AttrName) : Option ClassEntry :=
  match mro with
  | [] => none
  | g :: rest =>
    match lookupType env g with
    | some t =>
      match List.lookup name t.dict with
      | some ce => some ce
      | none => mroLookup env rest name
    | none => mroLookup env rest name

def slotIndex (t : TypeInfo) (name : AttrName) : Option Nat :=
  match t.layout with
  | .slotted names => List.findIdx? (fun s => s == name) names
  | .dicted => none

/-- Instance-storage lookup (spec section 4.2 step 2): consult the slot
at the type's fixed offset for slotted layouts, the instance dictionary
otherwise, reporting the resolution kind alongside the value. -/
def instanceLookup (t : TypeInfo) (o : Obj) (name : AttrName) : Option (ResolutionKind × Value) :=
  match t.layout with
  | .slotted names =>
    match List.findIdx? (fun s => s == name) names with
    | some i =>
      match o.slots.get? i with
      | some (some v) => some (.instanceSlot i, v)
      | _ => none
    | none => none
  | .dicted =>
    match List.lookup name o.dict with
    | some v => some (.instanceDict, v)
    | none => none

/-- Modelled from the spec: the ObjectModelAdapter resolution order of
section 4.2 — a data descriptor found in the MRO always wins, then
instance storage, then a non-data descriptor or plain class attribute,
else absent.  Returns the resolved kind together with the value. -/
def slowResolve (env : Env) (t : TypeInfo) (o : Obj) (name : AttrName) :
    Option (ResolutionKind × Value) :=
  match mroLookup env t.mro name with
  | some (.dataDescr v) => some (.dataDescriptor v, v)
  | ce =>
    match instanceLookup t o name with
    | some kv => some kv
    | none =>
      match ce with
      | some (.nonDataDescr v) => some (.nonDataDescriptor v, v)
      | some (.plain v) => some (.classAttribute v, v)
      | _ => none

/-- Modelled from the spec: resolve of the external interface (section
6), the kind-only view of slowResolve. -/
def resolve (env : Env) (t : TypeInfo) (o : Obj) (name : AttrName) : ResolutionKind :=
  match slowResolve env t o name with
  | some (k, _) => k
  | none => .absent

/-- Executing a cached ResolutionKind directly (spec section 4.3 step
3): load from the fixed slot offset, look up the instance dictionary, or
produce the descriptor value.  Cached non-data-descriptor and
class-attribute kinds perform the mandatory instance-storage shadow
check, since instance storage is mutable data that takes precedence over
them and is not covered by the type-level guard. -/
def execEntry (t : TypeInfo) (o : Obj) (name : AttrName) : ResolutionKind → Option Value
  | .dataDescriptor v => some v
  | .instanceSlot i =>
    match o.slots.get? i with
    | some (some v) => some v
    | _ => none
  | .instanceDict => List.lookup name o.dict
  | .nonDataDescriptor v =>
    match instanceLookup t o name with
    | some (_, w) => some w
    | none => some v
  | .classAttribute v =>
    match instanceLookup t o name with
    | some (_, w) => some w
    | none => some v
  | .absent => none

/-- Uncached ground-truth semantics of one attribute read: full
interception hook first, then full resolution, then the fallback-lookup
hook, else the attribute-not-found failure.  This is what every
evaluate call must return no matter what the cache holds. -/
def groundTruth (env : Env) (o : Obj) (name : AttrName) : Except Failure Value :=
  match lookupType env o.typeId with
  | none => .error .attributeNotFound
  | some t =>
    match t.getattributeHook with
    | some h => runHook h name
    | none =>
      match slowResolve env t o name with
      | some (_, v) => .ok v
      | none =>
        match t.getattrHook with
        | some h => runHook h name
        | none => .error .attributeNotFound

/-- Modelled from the spec: CacheEntry of section 3 — type identity
(generation id), version-tag snapshot and resolved kind, immutable once
created. -/
structure CacheEntry where
  typeIdentity : Nat
  versionTagSnapshot : Nat
  kind : ResolutionKind
  deriving DecidableEq, Repr

/-- Modelled from the spec: the cache held by one call site — an empty
slot, a monomorphic CacheSlot, or a PolymorphicCache holding entries in
most-recently-inserted-first order. -/
inductive CacheState where
  | empty : CacheState
  | mono : CacheEntry → CacheState
  | poly : List CacheEntry → CacheState
  deriving DecidableEq, Repr

def CacheState.entries : CacheState → List CacheEntry
  | .empty => []
  | .mono e => [e]
  | .poly es => es

/-- Modelled from the spec: the fixed capacity of a PolymorphicCache. -/
def CAPACITY : Nat := 4

/-- Abstract cost of one guard miss (slow-path resolution), against a
guard hit costing 1; any constant at least 1 works for the bounds the
spec states. -/
def MISS_COST : Nat := 10

/-- Modelled from the spec: the state of one compiled call site — the
attribute name it reads, its cache and the miss counter exposed by
diagnostics. -/
structure CallSite where
  attrName : AttrName
  cache : CacheState
  missCount : Nat
  deriving DecidableEq, Repr

/-- Modelled from the spec: compile_guarded_access of section 6 —
installs an empty CacheSlot for a call site. -/
def compileGuardedAccess (name : AttrName) : CallSite :=
  { attrName := name, cache := .empty, missCount := 0 }

/-- Modelled from the spec: guard evaluation (section 4.3) — type
identity and version-tag snapshot must both match the live values, and a
live tag of 0 forces a miss. -/
def guardMatch (e : CacheEntry) (g : Nat) (tag : Nat) : Bool :=
  e.typeIdentity == g && e.versionTagSnapshot == tag && tag != 0

/-- Scan the cache entries in recency order and return the first entry
whose guard matches (spec section 4.4: first match wins). -/
def cacheLookup (c : CacheState) (g : Nat) (tag : Nat) : Option CacheEntry :=
  c.entries.find? (fun e => guardMatch e g tag)

/-- Modelled from the spec: installing a freshly resolved entry — an
empty slot becomes monomorphic, a monomorphic slot is replaced wholesale
for the same type and promoted to a PolymorphicCache for a second
distinct type, and a polymorphic cache inserts at the front, evicting
the oldest entry beyond capacity. -/
def installEntry (c : CacheState) (e : CacheEntry) : CacheState :=
  match c with
  | .empty => .mono e
  | .mono old => if old.typeIdentity = e.typeIdentity then .mono e else .poly [e, old]
  | .poly es => .poly ((e :: es).take CAPACITY)

/-- Modelled from the spec: DeoptBridge miss handling (section 4.5) —
re-resolve through the adapter at the current type and tag, install or
refresh the entry unless the live tag is the never-cache sentinel 0, and
surface Absent as attribute-not-found via the fallback hook if any (a
fallback-hook call installs no cache entry). -/
def deoptMiss (env : Env) (site : CallSite) (t : TypeInfo) (o : Obj) (tag : Nat) :
    Except Failure Value × CallSite × Nat :=
  let site1 : CallSite := { site with missCount := site.missCount + 1 }
  match slowResolve env t o site.attrName with
  | some (k, v) =>
    let site2 := if tag = 0 then site1 else
      { site1 with cache := installEntry site1.cache ⟨o.typeId, tag, k⟩ }
    (.ok v, site2, MISS_COST)
  | none =>
    match t.getattrHook with
    | some h => (runHook h site.attrName, site1, MISS_COST)
    | none => (.error .attributeNotFound, site1, MISS_COST)

/-- Modelled from the spec: evaluate of section 6, the fast-path entry
point of sections 4.3-4.5.  Returns the value or failure, the updated
call site, and the abstract cost of the call (1 for a guard hit,
MISS_COST otherwise). -/
def evaluate (env : Env) (site : CallSite) (o : Obj) :
    Except Failure Value × CallSite × Nat :=
  match lookupType env o.typeId with
  | none => (.error .attributeNotFound, { site with missCount := site.missCount + 1 }, MISS_COST)
  | some t =>
    match t.getattributeHook with
    | some h => (runHook h site.attrName, site, MISS_COST)
    | none =>
      match cacheLookup site.cache o.typeId t.versionTag with
      | some e =>
        match execEntry t o site.attrName e.kind with
        | some v => (.ok v, site, 1)
        | none => deoptMiss env site t o t.versionTag
      | none => deoptMiss env site t o t.versionTag

/-- Modelled from the spec: the diagnostics view of section 6. -/
def diagnostics (site : CallSite) : String × Nat × Nat :=
  match site.cache with
  | .empty => ("monomorphic", 0, site.missCount)
  | .mono _ => ("monomorphic", 1, site.missCount)
  | .poly es => ("polymorphic", es.length, site.missCount)

/-- Run evaluate over a list of receivers, threading the call-site
state and collecting every result. -/
def evalSeq (env : Env) (site : CallSite) : List Obj → List (Except Failure Value) × CallSite
  | [] => ([], site)
  | o :: os =>
    let r := evaluate env site o
    let rest := evalSeq env r.2.1 os
    (r.1 :: rest.1, rest.2)

/-- Run evaluate n times on the same receiver, accumulating the abstract
cost. -/
def evalRun (env : Env) (site : CallSite) (o : Obj) : Nat → CallSite × Nat
  | 0 => (site, 0)
  | n + 1 =>
    let r := evaluate env site o
    let rest := evalRun env r.2.1 o n
    (rest.1, r.2.2 + rest.2)

def isDataDescrOpt : Option ClassEntry → Bool
  | some (.dataDescr _) => true
  | _ => false

/-- Coherence of a cached resolution kind with the current host state of
the type it was resolved against: the kind describes exactly what the
adapter would resolve for that type today. -/
def kindOK (env : Env) (t : TypeInfo) (name : AttrName) : ResolutionKind → Prop
  | .dataDescriptor v => mroLookup env t.mro name = some (.dataDescr v)
  | .instanceSlot i =>
      isDataDescrOpt (mroLookup env t.mro name) = false ∧ slotIndex t name = some i
  | .instanceDict =>
      isDataDescrOpt (mroLookup env t.mro name) = false ∧ t.layout = .dicted
  | .nonDataDescriptor v => mroLookup env t.mro name = some (.nonDataDescr v)
  | .classAttribute v => mroLookup env t.mro name = some (.plain v)
  | .absent => False

/-- Cache coherence invariant of one call site against the host state:
every entry's snapshot never runs ahead of its type's live tag, and an
entry whose guard would currently match carries a kind that is coherent
with the type's current resolution. -/
def INV (env : Env) (site : CallSite) : Prop :=
  ∀ e ∈ site.cache.entries, ∀ t, lookupType env e.typeIdentity = some t →
    (e.versionTagSnapshot ≤ t.versionTag ∨ t.versionTag = 0) ∧
    (e.versionTagSnapshot = t.versionTag → t.versionTag ≠ 0 →
      kindOK env t site.attrName e.kind)

theorem lookup_map_assoc (l : List (Nat × TypeInfo)) (f : Nat → TypeInfo → TypeInfo) (g : Nat) :
    List.lookup g (l.map (fun p => (p.fst, f p.fst p.snd))) = (List.lookup g l).map (f g) := by
  induction l with
  | nil => rfl
  | cons p rest ih =>
    obtain ⟨k, t⟩ := p
    simp only [List.map_cons, List.lookup]
    by_cases h : k = g
    · subst h
      simp
    · have hgk : (g == k) = false := beq_eq_false_iff_ne.mpr (Ne.symm h)
      simp [hgk, ih]

theorem lookupType_mapTypes (env : Env) (f : Nat → TypeInfo → TypeInfo) (g : Nat) :
    lookupType (mapTypes env f) g = (lookupType env g).map (f g) := by
  unfold lookupType mapTypes
  exact lookup_map_assoc env.types f g

theorem mapTypes_mapTypes (env : Env) (f1 f2 : Nat → TypeInfo → TypeInfo) :
    mapTypes (mapTypes env f1) f2 = mapTypes env (fun g t => f2 g (f1 g t)) := by
  unfold mapTypes
  simp [List.map_map, Function.comp]

theorem mroLookup_mapTypes (env : Env) (f : Nat → TypeInfo → TypeInfo) (mro : List Nat)
    (name : AttrName) (hf : ∀ g ∈ mro, ∀ t, (f g t).dict = t.dict) :
    mroLookup (mapTypes env f) mro name = mroLookup env mro name := by
  induction mro with
  | nil => rfl
  | cons g rest ih =>
    have hrest : mroLookup (mapTypes env f) rest name = mroLookup env rest name :=
      ih (fun h hm t => hf h (List.mem_cons_of_mem g hm) t)
    unfold mroLookup
    rw [lookupType_mapTypes]
    cases hl : lookupType env g with
    | none => simpa using hrest
    | some t =>
      have hd := hf g (List.mem_cons_self g rest) t
      cases hlk : List.lookup name t.dict with
      | some ce => simp [hd, hlk]
      | none => simp [hd, hlk, hrest]

theorem instanceLookup_inv (t : TypeInfo) (o : Obj) (name : AttrName)
    (k : ResolutionKind) (v : Value) (h : instanceLookup t o name = some (k, v)) :
    (∃ i names, k = .instanceSlot i ∧ t.layout = .slotted names ∧
      List.findIdx? (fun s => s == name) names = some i ∧ o.slots.get? i = some (some v)) ∨
    (k = .instanceDict ∧ t.layout = .dicted ∧ List.lookup name o.dict = some v) := by
  unfold instanceLookup at h
  split at h
  case h_1 names hlay =>
    split at h
    case h_1 i hidx =>
      split at h
      case h_1 w hget =>
        injection h with h1
        injection h1 with hk hv
        subst hk
        subst hv
        exact Or.inl ⟨i, names, rfl, hlay, hidx, hget⟩
      case h_2 => exact absurd h (by simp)
    case h_2 => exact absurd h (by simp)
  case h_2 hlay =>
    split at h
    case h_1 w hget =>
      injection h with h1
      injection h1 with hk hv
      subst hk
      subst hv
      exact Or.inr ⟨rfl, hlay, hget⟩
    case h_2 => exact absurd h (by simp)

theorem execEntry_of_instanceLookup (t : TypeInfo) (o : Obj) (name : AttrName)
    (k : ResolutionKind) (v : Value) (h : instanceLookup t o name = some (k, v)) :
    execEntry t o name k = some v := by
  rcases instanceLookup_inv t o name k v h with
    ⟨i, names, hk, hlay, hidx, hget⟩ | ⟨hk, hlay, hget⟩
  · subst hk
    simp only [execEntry]
    rw [hget]
  · subst hk
    simp only [execEntry]
    exact hget

/-- Shape of the resolver when the MRO does not produce a data
descriptor: instance storage first, then the non-data or plain class
entry. -/
theorem slowResolve_not_data (env : Env) (t : TypeInfo) (o : Obj) (name : AttrName)
    (hnd : isDataDescrOpt (mroLookup env t.mro name) = false) :
    slowResolve env t o name =
      (match instanceLookup t o name with
       | some kv => some kv
       | none =>
         match mroLookup env t.mro name with
         | some (.nonDataDescr v) => some (.nonDataDescriptor v, v)
         | some (.plain v) => some (.classAttribute v, v)
         | _ => none) := by
  unfold slowResolve
  cases hm : mroLookup env t.mro name with
  | none => rfl
  | some ce =>
    cases ce with
    | dataDescr v => rw [hm] at hnd; simp [isDataDescrOpt] at hnd
    | nonDataDescr v => rfl
    | plain v => rfl

theorem execEntry_of_slowResolve (env : Env) (t : TypeInfo) (o : Obj) (name : AttrName)
    (k : ResolutionKind) (v : Value) (h : slowResolve env t o name = some (k, v)) :
    execEntry t o name k = some v := by
  unfold slowResolve at h
  split at h
  case h_1 w hm =>
    injection h with h1
    injection h1 with hk hv
    subst hk
    subst hv
    rfl
  case h_2 ce hd =>
    split at h
    case h_1 kv hi =>
      cases kv
      injection h with h1
      cases h1
      exact execEntry_of_instanceLookup t o name k v hi
    case h_2 hi =>
      split at h
      case h_1 w hce =>
        injection h with h1
        injection h1 with hk hv
        subst hk
        subst hv
        simp only [execEntry]
        rw [hi]
      case h_2 w hce =>
        injection h with h1
        injection h1 with hk hv
        subst hk
        subst hv
        simp only [execEntry]
        rw [hi]
      case h_3 => exact absurd h (by simp)

theorem kindOK_of_slowResolve (env : Env) (t : TypeInfo) (o : Obj) (name : AttrName)
    (k : ResolutionKind) (v : Value) (h : slowResolve env t o name = some (k, v)) :
    kindOK env t name k := by
  unfold slowResolve at h
  split at h
  case h_1 w hm =>
    injection h with h1
    injection h1 with hk hv
    subst hk
    exact hm
  case h_2 ce hd =>
    have hnd : isDataDescrOpt (mroLookup env t.mro name) = false := by
      cases hm2 : mroLookup env t.mro name with
      | none => rfl
      | some c =>
        cases c with
        | dataDescr w => exact absurd hm2 (hd w)
        | nonDataDescr w => rfl
        | plain w => rfl
    split at h
    case h_1 kv hi =>
      cases kv
      injection h with h1
      cases h1
      rcases instanceLookup_inv t o name k v hi with
        ⟨i, names, hk, hlay, hidx, hget⟩ | ⟨hk, hlay, hget⟩
      · subst hk
        exact ⟨hnd, by unfold slotIndex; rw [hlay]; exact hidx⟩
      · subst hk
        exact ⟨hnd, hlay⟩
    case h_2 hi =>
      split at h
      case h_1 w hce =>
        injection h with h1
        injection h1 with hk hv
        subst hk
        exact hce
      case h_2 w hce =>
        injection h with h1
        injection h1 with hk hv
        subst hk
        exact hce
      case h_3 => exact absurd h (by simp)

theorem guardMatch_iff (e : CacheEntry) (g tag : Nat) :
    guardMatch e g tag = true ↔
      e.typeIdentity = g ∧ e.versionTagSnapshot = tag ∧ tag ≠ 0 := by
  simp [guardMatch, Bool.and_eq_true, beq_iff_eq, bne_iff_ne, and_assoc]

theorem cacheLookup_some {c : CacheState} {g tag : Nat} {e : CacheEntry}
    (h : cacheLookup c g tag = some e) :
    e ∈ c.entries ∧ guardMatch e g tag = true := by
  unfold cacheLookup at h
  have h2 := List.find?_some h
  exact ⟨List.mem_of_find?_eq_some h, h2⟩

theorem cacheLookup_tag_zero (c : CacheState) (g : Nat) :
    cacheLookup c g 0 = none := by
  apply List.find?_eq_none.mpr
  intro e _
  simp [guardMatch]

/-- Executing a guard-matching coherent entry reproduces exactly the
value a full re-resolution would produce. -/
theorem hit_correct (env : Env) (t : TypeInfo) (o : Obj) (name : AttrName)
    (k : ResolutionKind) (v : Value) (hk : kindOK env t name k)
    (hx : execEntry t o name k = some v) :
    ∃ k2, slowResolve env t o name = some (k2, v) := by
  cases k with
  | dataDescriptor w =>
    simp only [kindOK] at hk
    have hx2 : execEntry t o name (.dataDescriptor w) = some w := rfl
    have hv : v = w := by
      have := hx2.symm.trans hx
      injection this with h1
      exact h1.symm
    subst hv
    exact ⟨.dataDescriptor v, by unfold slowResolve; simp [hk]⟩
  | instanceSlot i =>
    simp only [kindOK] at hk
    obtain ⟨hnd, hsi⟩ := hk
    cases hlay : t.layout with
    | dicted =>
      have h2 : slotIndex t name = none := by
        unfold slotIndex
        rw [hlay]
      rw [h2] at hsi
      exact absurd hsi (by simp)
    | slotted names =>
      have h2 : slotIndex t name = List.findIdx? (fun s => s == name) names := by
        unfold slotIndex
        rw [hlay]
      rw [h2] at hsi
      cases hg2 : o.slots.get? i with
      | none =>
        have hx2 : execEntry t o name (.instanceSlot i) = none := by
          simp only [execEntry, hg2]
        exact absurd (hx2.symm.trans hx) (by simp)
      | some ov =>
        cases ov with
        | none =>
          have hx2 : execEntry t o name (.instanceSlot i) = none := by
            simp only [execEntry, hg2]
          exact absurd (hx2.symm.trans hx) (by simp)
        | some w =>
          have hx2 : execEntry t o name (.instanceSlot i) = some w := by
            simp only [execEntry, hg2]
          have hv : v = w := by
            have := hx2.symm.trans hx
            injection this with h1
            exact h1.symm
          subst hv
          have hil : instanceLookup t o name = some (.instanceSlot i, v) := by
            simp only [instanceLookup, hlay, hsi, hg2]
          exact ⟨.instanceSlot i, by
            rw [slowResolve_not_data env t o name hnd]
            simp only [hil]⟩
  | instanceDict =>
    simp only [kindOK] at hk
    obtain ⟨hnd, hlay⟩ := hk
    simp only [execEntry] at hx
    have hil : instanceLookup t o name = some (.instanceDict, v) := by
      simp only [instanceLookup, hlay, hx]
    exact ⟨.instanceDict, by
      rw [slowResolve_not_data env t o name hnd]
      simp only [hil]⟩
  | nonDataDescriptor w =>
    simp only [kindOK] at hk
    have hnd : isDataDescrOpt (mroLookup env t.mro name) = false := by rw [hk]; rfl
    cases hi : instanceLookup t o name with
    | some kv =>
      obtain ⟨k0, w0⟩ := kv
      have hx2 : execEntry t o name (.nonDataDescriptor w) = some w0 := by
        simp only [execEntry, hi]
      have hv : v = w0 := by
        have := hx2.symm.trans hx
        injection this with h1
        exact h1.symm
      subst hv
      exact ⟨k0, by
        rw [slowResolve_not_data env t o name hnd]
        simp only [hi]⟩
    | none =>
      have hx2 : execEntry t o name (.nonDataDescriptor w) = some w := by
        simp only [execEntry, hi]
      have hv : v = w := by
        have := hx2.symm.trans hx
        injection this with h1
        exact h1.symm
      subst hv
      exact ⟨.nonDataDescriptor v, by
        rw [slowResolve_not_data env t o name hnd]
        simp only [hi, hk]⟩
  | classAttribute w =>
    simp only [kindOK] at hk
    have hnd : isDataDescrOpt (mroLookup env t.mro name) = false := by rw [hk]; rfl
    cases hi : instanceLookup t o name with
    | some kv =>
      obtain ⟨k0, w0⟩ := kv
      have hx2 : execEntry t o name (.classAttribute w) = some w0 := by
        simp only [execEntry, hi]
      have hv : v = w0 := by
        have := hx2.symm.trans hx
        injection this with h1
        exact h1.symm
      subst hv
      exact ⟨k0, by
        rw [slowResolve_not_data env t o name hnd]
        simp only [hi]⟩
    | none =>
      have hx2 : execEntry t o name (.classAttribute w) = some w := by
        simp only [execEntry, hi]
      have hv : v = w := by
        have := hx2.symm.trans hx
        injection this with h1
        exact h1.symm
      subst hv
      exact ⟨.classAttribute v, by
        rw [slowResolve_not_data env t o name hnd]
        simp only [hi, hk]⟩
  | absent =>
    simp only [kindOK] at hk

theorem deoptMiss_fst (env : Env) (site : CallSite) (t : TypeInfo) (o : Obj) (tag : Nat)
    (hl : lookupType env o.typeId = some t) (hh : t.getattributeHook = none) :
    (deoptMiss env site t o tag).1 = groundTruth env o site.attrName := by
  unfold deoptMiss groundTruth
  rw [hl]
  cases hr : slowResolve env t o site.attrName with
  | some kv => obtain ⟨k, v⟩ := kv; simp [hh, hr]
  | none => cases hg : t.getattrHook <;> simp [hh, hr, hg]

/-- Transparency of evaluate: whatever the coherent cache holds, the
returned value or failure is the uncached ground truth. -/
theorem evaluate_fst (env : Env) (site : CallSite) (o : Obj) (hINV : INV env site) :
    (evaluate env site o).1 = groundTruth env o site.attrName := by
  cases hl : lookupType env o.typeId with
  | none => simp only [evaluate, groundTruth, hl]
  | some t =>
    cases hh : t.getattributeHook with
    | some h => simp only [evaluate, groundTruth, hl, hh]
    | none =>
      cases hc : cacheLookup site.cache o.typeId t.versionTag with
      | none =>
        simp only [evaluate, hl, hh, hc]
        exact deoptMiss_fst env site t o t.versionTag hl hh
      | some e =>
        cases hx : execEntry t o site.attrName e.kind with
        | none =>
          simp only [evaluate, hl, hh, hc, hx]
          exact deoptMiss_fst env site t o t.versionTag hl hh
        | some v =>
          obtain ⟨hmem, hg⟩ := cacheLookup_some hc
          obtain ⟨hid, htag, hne⟩ := (guardMatch_iff e o.typeId t.versionTag).mp hg
          have hl2 : lookupType env e.typeIdentity = some t := by rw [hid]; exact hl
          have hk := (hINV e hmem t hl2).2 htag hne
          obtain ⟨k2, hsr⟩ := hit_correct env t o site.attrName e.kind v hk hx
          simp only [evaluate, groundTruth, hl, hh, hc, hx, hsr]

theorem installEntry_mem {c : CacheState} {en e2 : CacheEntry}
    (h : e2 ∈ (installEntry c en).entries) : e2 = en ∨ e2 ∈ c.entries := by
  cases c with
  | empty =>
    simp only [installEntry, CacheState.entries, List.mem_singleton] at h
    exact Or.inl h
  | mono old =>
    by_cases hid : old.typeIdentity = en.typeIdentity
    · simp only [installEntry, hid, if_pos, CacheState.entries, List.mem_singleton] at h
      exact Or.inl h
    · simp only [installEntry, if_neg hid, CacheState.entries] at h
      rcases List.mem_cons.mp h with h1 | h1
      · exact Or.inl h1
      · right
        simp only [CacheState.entries]
        exact h1
  | poly es =>
    simp only [installEntry, CacheState.entries] at h
    have h2 := List.take_subset CAPACITY (en :: es) h
    rcases List.mem_cons.mp h2 with h3 | h3
    · exact Or.inl h3
    · exact Or.inr h3

theorem deoptMiss_attrName (env : Env) (site : CallSite) (t : TypeInfo) (o : Obj) (tag : Nat) :
    (deoptMiss env site t o tag).2.1.attrName = site.attrName := by
  unfold deoptMiss
  cases hr : slowResolve env t o site.attrName with
  | some kv =>
    obtain ⟨k, v⟩ := kv
    by_cases hz : tag = 0 <;> simp [hz]
  | none => cases t.getattrHook <;> simp

theorem evaluate_attrName (env : Env) (site : CallSite) (o : Obj) :
    (evaluate env site o).2.1.attrName = site.attrName := by
  cases hl : lookupType env o.typeId with
  | none => simp only [evaluate, hl]
  | some t =>
    cases hh : t.getattributeHook with
    | some h => simp only [evaluate, hl, hh]
    | none =>
      cases hc : cacheLookup site.cache o.typeId t.versionTag with
      | some e =>
        cases hx : execEntry t o site.attrName e.kind with
        | some v => simp only [evaluate, hl, hh, hc, hx]
        | none =>
          simp only [evaluate, hl, hh, hc, hx]
          exact deoptMiss_attrName env site t o t.versionTag
      | none =>
        simp only [evaluate, hl, hh, hc]
        exact deoptMiss_attrName env site t o t.versionTag

theorem deoptMiss_cache_cases (env : Env) (site : CallSite) (t : TypeInfo) (o : Obj) (tag : Nat) :
    (deoptMiss env site t o tag).2.1.cache = site.cache ∨
    ∃ k v, tag ≠ 0 ∧ slowResolve env t o site.attrName = some (k, v) ∧
      (deoptMiss env site t o tag).2.1.cache = installEntry site.cache ⟨o.typeId, tag, k⟩ := by
  unfold deoptMiss
  cases hr : slowResolve env t o site.attrName with
  | none => left; cases t.getattrHook <;> simp
  | some kv =>
    obtain ⟨k, v⟩ := kv
    by_cases hz : tag = 0
    · left
      simp [hz]
    · right
      exact ⟨k, v, hz, rfl, by simp [hz]⟩

/-- Every evaluate call either leaves the cache untouched or installs
exactly one freshly resolved entry for the receiver's live type and
non-zero live tag. -/
theorem evaluate_cache_cases (env : Env) (site : CallSite) (o : Obj) :
    (evaluate env site o).2.1.cache = site.cache ∨
    ∃ t k v, lookupType env o.typeId = some t ∧ t.getattributeHook = none ∧
      t.versionTag ≠ 0 ∧ slowResolve env t o site.attrName = some (k, v) ∧
      (evaluate env site o).2.1.cache = installEntry site.cache ⟨o.typeId, t.versionTag, k⟩ := by
  cases hl : lookupType env o.typeId with
  | none => left; simp only [evaluate, hl]
  | some t =>
    cases hh : t.getattributeHook with
    | some h => left; simp only [evaluate, hl, hh]
    | none =>
      have hred : (evaluate env site o).2.1 = site ∨
          evaluate env site o = deoptMiss env site t o t.versionTag := by
        cases hc : cacheLookup site.cache o.typeId t.versionTag with
        | some e =>
          cases hx : execEntry t o site.attrName e.kind with
          | some v => left; simp only [evaluate, hl, hh, hc, hx]
          | none => right; simp only [evaluate, hl, hh, hc, hx]
        | none => right; simp only [evaluate, hl, hh, hc]
      rcases hred with hsame | hdeopt
      · left
        rw [hsame]
      · rw [hdeopt]
        rcases deoptMiss_cache_cases env site t o t.versionTag with hsame | ⟨k, v, hz, hr, hinst⟩
        · left
          exact hsame
        · right
          exact ⟨t, k, v, rfl, hh, hz, hr, hinst⟩

/-- Coherence is preserved by every evaluate call. -/
theorem evaluate_INV (env : Env) (site : CallSite) (o : Obj) (hINV : INV env site) :
    INV env (evaluate env site o).2.1 := by
  intro e2 hmem t2 hl2
  rw [evaluate_attrName]
  rcases evaluate_cache_cases env site o with hsame | ⟨t, k, v, hl, hh, hz, hr, hinst⟩
  · rw [hsame] at hmem
    exact hINV e2 hmem t2 hl2
  · rw [hinst] at hmem
    rcases installEntry_mem hmem with he | hold
    · subst he
      have h3 : some t = some t2 := by
        rw [← hl]
        exact hl2
      injection h3 with h4
      subst h4
      refine ⟨Or.inl (le_refl _), fun _ _ => ?_⟩
      exact kindOK_of_slowResolve env t o site.attrName k v hr
    · exact hINV e2 hold t2 hl2

/-- No entry with the reserved snapshot 0 is ever written: every entry
of the updated call site either was already present or carries a
non-zero snapshot. -/
theorem evaluate_no_zero_snapshot (env : Env) (site : CallSite) (o : Obj) (e2 : CacheEntry)
    (h : e2 ∈ (evaluate env site o).2.1.cache.entries) :
    e2 ∈ site.cache.entries ∨ e2.versionTagSnapshot ≠ 0 := by
  rcases evaluate_cache_cases env site o with hsame | ⟨t, k, v, hl, hh, hz, hr, hinst⟩
  · rw [hsame] at h
    exact Or.inl h
  · rw [hinst] at h
    rcases installEntry_mem h with he | hold
    · right
      rw [he]
      exact hz
    · exact Or.inl hold

/-- A type pinned at tag 0 takes the slow path on every call: the cache
is never consulted successfully, nothing is installed, the miss counter
advances and the result is the ground truth. -/
theorem evaluate_tag_zero (env : Env) (site : CallSite) (o : Obj) (t : TypeInfo)
    (hl : lookupType env o.typeId = some t) (hh : t.getattributeHook = none)
    (hz : t.versionTag = 0) :
    evaluate env site o = (groundTruth env o site.attrName,
      { site with missCount := site.missCount + 1 }, MISS_COST) := by
  have hc : cacheLookup site.cache o.typeId t.versionTag = none := by
    rw [hz]
    exact cacheLookup_tag_zero site.cache o.typeId
  simp only [evaluate, hl, hh, hc]
  unfold deoptMiss
  cases hr : slowResolve env t o site.attrName with
  | some kv =>
    obtain ⟨k, v⟩ := kv
    simp [hz, groundTruth, hl, hh, hr]
  | none => cases hg : t.getattrHook <;> simp [groundTruth, hl, hh, hr, hg]

theorem install_head (c : CacheState) (en : CacheEntry) :
    ∃ rest, (installEntry c en).entries = en :: rest := by
  cases c with
  | empty => exact ⟨[], rfl⟩
  | mono old =>
    by_cases h : old.typeIdentity = en.typeIdentity
    · exact ⟨[], by simp [installEntry, h, CacheState.entries]⟩
    · exact ⟨[old], by simp [installEntry, h, CacheState.entries]⟩
  | poly es =>
    refine ⟨es.take 3, ?_⟩
    simp [installEntry, CacheState.entries, CAPACITY]

theorem cacheLookup_install_self (c : CacheState) (g tag : Nat) (k : ResolutionKind)
    (hz : tag ≠ 0) :
    cacheLookup (installEntry c ⟨g, tag, k⟩) g tag = some ⟨g, tag, k⟩ := by
  obtain ⟨rest, hr⟩ := install_head c ⟨g, tag, k⟩
  unfold cacheLookup
  rw [hr]
  apply List.find?_cons_of_pos
  exact (guardMatch_iff ⟨g, tag, k⟩ g tag).mpr ⟨rfl, rfl, hz⟩

/-- A call site is in fast-hit position for a receiver when the guard of
some entry matches and its cached kind executes to a value. -/
def fastHit (env : Env) (site : CallSite) (o : Obj) : Prop :=
  ∃ t e v, lookupType env o.typeId = some t ∧ t.getattributeHook = none ∧
    cacheLookup site.cache o.typeId t.versionTag = some e ∧
    execEntry t o site.attrName e.kind = some v

theorem evaluate_of_fastHit {env : Env} {site : CallSite} {o : Obj}
    (h : fastHit env site o) : ∃ v, evaluate env site o = (.ok v, site, 1) := by
  obtain ⟨t, e, v, hl, hh, hc, hx⟩ := h
  exact ⟨v, by simp only [evaluate, hl, hh, hc, hx]⟩

theorem deoptMiss_install (env : Env) (site : CallSite) (t : TypeInfo) (o : Obj)
    (k : ResolutionKind) (v : Value) (hz : t.versionTag ≠ 0)
    (hr : slowResolve env t o site.attrName = some (k, v)) :
    (deoptMiss env site t o t.versionTag).2.1.cache =
      installEntry site.cache ⟨o.typeId, t.versionTag, k⟩ := by
  simp only [deoptMiss, hr]
  simp [hz]

/-- After one evaluate call on a live, hook-free receiver whose type has
a cacheable tag and a resolvable attribute, the call site is in fast-hit
position for that receiver. -/
theorem fastHit_after (env : Env) (site : CallSite) (o : Obj) (t : TypeInfo)
    (k : ResolutionKind) (v : Value)
    (hl : lookupType env o.typeId = some t) (hh : t.getattributeHook = none)
    (hz : t.versionTag ≠ 0) (hr : slowResolve env t o site.attrName = some (k, v)) :
    fastHit env (evaluate env site o).2.1 o := by
  cases hc : cacheLookup site.cache o.typeId t.versionTag with
  | some e =>
    cases hx : execEntry t o site.attrName e.kind with
    | some w =>
      have hev : evaluate env site o = (.ok w, site, 1) := by
        simp only [evaluate, hl, hh, hc, hx]
      rw [hev]
      exact ⟨t, e, w, hl, hh, hc, hx⟩
    | none =>
      have hev : evaluate env site o = deoptMiss env site t o t.versionTag := by
        simp only [evaluate, hl, hh, hc, hx]
      rw [hev]
      refine ⟨t, ⟨o.typeId, t.versionTag, k⟩, v, hl, hh, ?_, ?_⟩
      · rw [deoptMiss_install env site t o k v hz hr]
        exact cacheLookup_install_self site.cache o.typeId t.versionTag k hz
      · rw [deoptMiss_attrName env site t o t.versionTag]
        exact execEntry_of_slowResolve env t o site.attrName k v hr
  | none =>
    have hev : evaluate env site o = deoptMiss env site t o t.versionTag := by
      simp only [evaluate, hl, hh, hc]
    rw [hev]
    refine ⟨t, ⟨o.typeId, t.versionTag, k⟩, v, hl, hh, ?_, ?_⟩
    · rw [deoptMiss_install env site t o k v hz hr]
      exact cacheLookup_install_self site.cache o.typeId t.versionTag k hz
    · rw [deoptMiss_attrName env site t o t.versionTag]
      exact execEntry_of_slowResolve env t o site.attrName k v hr

/-- A call site in fast-hit position stays unchanged: n further calls
cost exactly n. -/
theorem evalRun_of_fastHit (env : Env) (site : CallSite) (o : Obj) (n : Nat)
    (h : fastHit env site o) : evalRun env site o n = (site, n) := by
  induction n with
  | zero => rfl
  | succ m ih =>
    obtain ⟨v, hv⟩ := evaluate_of_fastHit h
    simp only [evalRun, hv, ih]
    rw [Nat.add_comm]

theorem evaluate_cost (env : Env) (site : CallSite) (o : Obj) :
    (evaluate env site o).2.2 = 1 ∨ (evaluate env site o).2.2 = MISS_COST := by
  have hd : ∀ t tag, (deoptMiss env site t o tag).2.2 = MISS_COST := by
    intro t tag
    unfold deoptMiss
    cases hr : slowResolve env t o site.attrName with
    | some kv =>
      obtain ⟨k, v⟩ := kv
      by_cases hz : tag = 0 <;> simp [hz]
    | none => cases t.getattrHook <;> simp
  cases hl : lookupType env o.typeId with
  | none => right; simp only [evaluate, hl]
  | some t =>
    cases hh : t.getattributeHook with
    | some h => right; simp only [evaluate, hl, hh]
    | none =>
      cases hc : cacheLookup site.cache o.typeId t.versionTag with
      | some e =>
        cases hx : execEntry t o site.attrName e.kind with
        | some v => left; simp only [evaluate, hl, hh, hc, hx]
        | none =>
          right
          simp only [evaluate, hl, hh, hc, hx]
          exact hd t t.versionTag
      | none =>
        right
        simp only [evaluate, hl, hh, hc]
        exact hd t t.versionTag

theorem evaluate_cost_pos (env : Env) (site : CallSite) (o : Obj) :
    1 ≤ (evaluate env site o).2.2 := by
  rcases evaluate_cost env site o with h | h
  · rw [h]
  · rw [h]
    simp [MISS_COST]

def CacheState.isPoly : CacheState → Bool
  | .poly _ => true
  | _ => false

theorem installEntry_isPoly (c : CacheState) (en : CacheEntry)
    (h : c.isPoly = true) : (installEntry c en).isPoly = true := by
  cases c with
  | empty => simp [CacheState.isPoly] at h
  | mono old => simp [CacheState.isPoly] at h
  | poly es => rfl

/-- Once a call site has gone polymorphic it never reverts to a
single-type specialisation: no miss reinstalls a monomorphic slot. -/
theorem evaluate_poly_stable (env : Env) (site : CallSite) (o : Obj)
    (h : site.cache.isPoly = true) :
    ((evaluate env site o).2.1.cache).isPoly = true := by
  rcases evaluate_cache_cases env site o with hsame | ⟨t, k, v, hl, hh, hz, hr, hinst⟩
  · rw [hsame]
    exact h
  · rw [hinst]
    exact installEntry_isPoly site.cache ⟨o.typeId, t.versionTag, k⟩ h

/-- Transparency of a whole call sequence: with a coherent starting
cache, every call of an arbitrary interleaving of receivers returns that
receiver's ground-truth value, and coherence persists. -/
theorem evalSeq_correct (env : Env) (objs : List Obj) :
    ∀ site, INV env site →
      (evalSeq env site objs).1 = objs.map (fun o => groundTruth env o site.attrName) ∧
      INV env (evalSeq env site objs).2 ∧
      (evalSeq env site objs).2.attrName = site.attrName := by
  induction objs with
  | nil => exact fun site h => ⟨rfl, h, rfl⟩
  | cons o os ih =>
    intro site h
    have hfst := evaluate_fst env site o h
    have hinv2 := evaluate_INV env site o h
    have hname := evaluate_attrName env site o
    obtain ⟨ih1, ih2, ih3⟩ := ih (evaluate env site o).2.1 hinv2
    refine ⟨?_, ?_, ?_⟩
    · simp only [evalSeq, List.map_cons]
      rw [hfst, ih1, hname]
    · simp only [evalSeq]
      exact ih2
    · simp only [evalSeq]
      rw [ih3, hname]

theorem bumpTag_cases (n : Nat) : bumpTag n = 0 ∨ (n ≠ 0 ∧ bumpTag n = n + 1) := by
  unfold bumpTag
  by_cases h0 : n = 0
  · left
    simp [h0]
  · by_cases hL : n + 1 = TAG_LIMIT
    · left
      simp [h0, hL]
    · right
      exact ⟨h0, by simp [h0, hL]⟩

/-- Bumping a non-exhausted tag always changes it, so an entry holding
the old tag as its snapshot can never guard-match again. -/
theorem bumpTag_ne (n : Nat) (h : n ≠ 0) : bumpTag n ≠ n := by
  rcases bumpTag_cases n with h1 | ⟨h2, h3⟩
  · rw [h1]
    exact fun he => h he.symm
  · rw [h3]
    omega

theorem setTypeAttr_eq_mapTypes (env : Env) (g : Nat) (name : AttrName) (ce : ClassEntry) :
    setTypeAttr env g name ce = mapTypes env (fun h t =>
      bumpType g h (if h = g then { t with dict := (name, ce) :: t.dict } else t)) := by
  unfold setTypeAttr bump
  rw [mapTypes_mapTypes]

theorem lookupType_setTypeAttr (env : Env) (g : Nat) (name : AttrName) (ce : ClassEntry)
    (h : Nat) :
    lookupType (setTypeAttr env g name ce) h =
      (lookupType env h).map (fun t =>
        bumpType g h (if h = g then { t with dict := (name, ce) :: t.dict } else t)) := by
  rw [setTypeAttr_eq_mapTypes, lookupType_mapTypes]

theorem bumpType_dict (base g : Nat) (t : TypeInfo) : (bumpType base g t).dict = t.dict := by
  unfold bumpType
  by_cases h : g = base ∨ base ∈ t.mro <;> simp [h]

theorem bumpType_mro (base g : Nat) (t : TypeInfo) : (bumpType base g t).mro = t.mro := by
  unfold bumpType
  by_cases h : g = base ∨ base ∈ t.mro <;> simp [h]

theorem kindOK_congr (env1 env2 : Env) (t : TypeInfo) (name : AttrName) (k : ResolutionKind)
    (hml : mroLookup env2 t.mro name = mroLookup env1 t.mro name)
    (hk : kindOK env1 t name k) : kindOK env2 t name k := by
  cases k with
  | dataDescriptor v => simp only [kindOK] at hk ⊢; rw [hml]; exact hk
  | instanceSlot i => simp only [kindOK] at hk ⊢; rw [hml]; exact hk
  | instanceDict => simp only [kindOK] at hk ⊢; rw [hml]; exact hk
  | nonDataDescriptor v => simp only [kindOK] at hk ⊢; rw [hml]; exact hk
  | classAttribute v => simp only [kindOK] at hk ⊢; rw [hml]; exact hk
  | absent => simp only [kindOK] at hk

/-- MRO lookups of a type whose ancestry does not include the mutated
type are unaffected by the mutation. -/
theorem mroLookup_setTypeAttr_untouched (env : Env) (g : Nat) (name2 : AttrName)
    (ce : ClassEntry) (mro : List Nat) (name : AttrName) (hng : g ∉ mro) :
    mroLookup (setTypeAttr env g name2 ce) mro name = mroLookup env mro name := by
  rw [setTypeAttr_eq_mapTypes]
  apply mroLookup_mapTypes
  intro h hm t
  have hne : ¬ h = g := fun he => hng (he ▸ hm)
  rw [if_neg hne]
  exact bumpType_dict g h t

/-- Coherence of a call site survives any type-attribute mutation: types
in the mutated ancestry get a fresh tag that no stored snapshot can
match, and untouched types keep both their tag and their resolution. -/
theorem INV_setTypeAttr (env : Env) (site : CallSite) (g : Nat) (name : AttrName)
    (ce : ClassEntry) (hINV : INV env site) : INV (setTypeAttr env g name ce) site := by
  intro e hmem t2 hl2
  rw [lookupType_setTypeAttr] at hl2
  cases hl : lookupType env e.typeIdentity with
  | none =>
    rw [hl] at hl2
    exact absurd hl2 (by simp)
  | some t =>
    rw [hl] at hl2
    simp only [Option.map_some'] at hl2
    injection hl2 with ht2
    obtain ⟨hfst, hsnd⟩ := hINV e hmem t hl
    have hmro1 : (if e.typeIdentity = g then { t with dict := (name, ce) :: t.dict } else t).mro
        = t.mro := by
      by_cases hg : e.typeIdentity = g <;> simp [hg]
    have hvt1 : (if e.typeIdentity = g then { t with dict := (name, ce) :: t.dict } else t).versionTag
        = t.versionTag := by
      by_cases hg : e.typeIdentity = g <;> simp [hg]
    by_cases hb : e.typeIdentity = g ∨ g ∈ t.mro
    · have hcond : e.typeIdentity = g ∨
          g ∈ (if e.typeIdentity = g then { t with dict := (name, ce) :: t.dict } else t).mro := by
        rw [hmro1]
        exact hb
      have hvt : t2.versionTag = bumpTag t.versionTag := by
        rw [← ht2]
        unfold bumpType
        rw [if_pos hcond]
        simp [hvt1]
      constructor
      · rw [hvt]
        rcases bumpTag_cases t.versionTag with hzero | ⟨hne, hsucc⟩
        · right
          exact hzero
        · left
          rw [hsucc]
          rcases hfst with h1 | h1
          · omega
          · exact absurd h1 hne
      · intro hsnap hne2
        rw [hvt] at hsnap hne2
        rcases bumpTag_cases t.versionTag with hzero | ⟨hne, hsucc⟩
        · exact absurd hzero hne2
        · rcases hfst with h1 | h1
          · rw [hsucc] at hsnap
            omega
          · exact absurd h1 hne
    · have hne_g : ¬ e.typeIdentity = g := fun he => hb (Or.inl he)
      have hnm : g ∉ t.mro := fun hm => hb (Or.inr hm)
      have ht2b : t2 = t := by
        rw [← ht2, if_neg hne_g]
        unfold bumpType
        rw [if_neg hb]
      subst ht2b
      refine ⟨hfst, fun hsnap hne2 => ?_⟩
      have hk := hsnd hsnap hne2
      exact kindOK_congr env (setTypeAttr env g name ce) t2 site.attrName e.kind
        (mroLookup_setTypeAttr_untouched env g name ce t2.mro site.attrName hnm) hk

theorem INV_empty (env : Env) (name : AttrName) : INV env (compileGuardedAccess name) := by
  intro e he
  simp [compileGuardedAccess, CacheState.entries] at he

theorem groundTruth_slot (env : Env) (o : Obj) (t : TypeInfo) (name : AttrName) (v : Value)
    (hl : lookupType env o.typeId = some t) (hh : t.getattributeHook = none)
    (hm : mroLookup env t.mro name = none)
    (hlay : t.layout = .slotted [name]) (hslots : o.slots = [some v]) :
    groundTruth env o name = .ok v := by
  have hidx : List.findIdx? (fun s => s == name) [name] = some 0 := by
    simp [List.findIdx?_cons]
  have hil : instanceLookup t o name = some (.instanceSlot 0, v) := by
    simp only [instanceLookup, hlay, hidx, hslots]
    rfl
  have hsr : slowResolve env t o name = some (.instanceSlot 0, v) := by
    rw [slowResolve_not_data env t o name (by rw [hm]; rfl)]
    simp only [hil]
  simp only [groundTruth, hl, hh, hsr]

theorem groundTruth_data (env : Env) (o : Obj) (t : TypeInfo) (name : AttrName) (v : Value)
    (hl : lookupType env o.typeId = some t) (hh : t.getattributeHook = none)
    (hmd : mroLookup env t.mro name = some (.dataDescr v)) :
    groundTruth env o name = .ok v := by
  have hsr : slowResolve env t o name = some (.dataDescriptor v, v) := by
    simp only [slowResolve, hmd]
  simp only [groundTruth, hl, hh, hsr]

theorem instanceLookup_kind_eq (t : TypeInfo) (o o2 : Obj) (name : AttrName)
    (k k2 : ResolutionKind) (v v2 : Value)
    (h1 : instanceLookup t o name = some (k, v))
    (h2 : instanceLookup t o2 name = some (k2, v2)) : k = k2 := by
  rcases instanceLookup_inv t o name k v h1 with
    ⟨i, names, hk, hlay, hidx, _⟩ | ⟨hk, hlay, _⟩ <;>
    rcases instanceLookup_inv t o2 name k2 v2 h2 with
      ⟨i2, names2, hk2, hlay2, hidx2, _⟩ | ⟨hk2, hlay2, _⟩
  · rw [hlay] at hlay2
    injection hlay2 with hn
    subst hn
    rw [hidx] at hidx2
    injection hidx2 with hi
    rw [hk, hk2, hi]
  · rw [hlay] at hlay2
    exact absurd hlay2 (by simp)
  · rw [hlay] at hlay2
    exact absurd hlay2.symm (by simp)
  · rw [hk, hk2]

/-- C1: for every call site and every interleaving of calls with two
distinct types A and B, each exposing the attribute with its own slot
value, evaluate always returns the called receiver's own value, and the
cache stays coherent — no leakage between the types and no corruption
of a still-matching entry. -/
theorem claim_C1 (env : Env) (site : CallSite) (ga gb : Nat) (ta tb : TypeInfo)
    (a b : Obj) (va vb : Value) (bits : List Bool)
    (hINV : INV env site) (_hab : ga ≠ gb)
    (hga : lookupType env ga = some ta) (hgb : lookupType env gb = some tb)
    (hha : ta.getattributeHook = none) (hhb : tb.getattributeHook = none)
    (haid : a.typeId = ga) (hbid : b.typeId = gb)
    (hma : mroLookup env ta.mro site.attrName = none)
    (hmb : mroLookup env tb.mro site.attrName = none)
    (hlaya : ta.layout = .slotted [site.attrName])
    (hlayb : tb.layout = .slotted [site.attrName])
    (hsa : a.slots = [some va]) (hsb : b.slots = [some vb]) :
    (evalSeq env site (bits.map (fun c => if c then a else b))).1 =
      bits.map (fun c => if c then Except.ok va else Except.ok vb) ∧
    INV env (evalSeq env site (bits.map (fun c => if c then a else b))).2 := by
  obtain ⟨h1, h2, _⟩ := evalSeq_correct env (bits.map (fun c => if c then a else b)) site hINV
  refine ⟨?_, h2⟩
  rw [h1, List.map_map]
  have hfun : ((fun o => groundTruth env o site.attrName) ∘ fun c => if c then a else b)
      = fun c : Bool => if c then Except.ok va else Except.ok vb := by
    funext c
    cases c with
    | true =>
      simp only [Function.comp, if_pos]
      exact groundTruth_slot env a ta site.attrName va (by rw [haid]; exact hga) hha hma hlaya hsa
    | false =>
      simp only [Function.comp, if_neg]
      exact groundTruth_slot env b tb site.attrName vb (by rw [hbid]; exact hgb) hhb hmb hlayb hsb
  rw [hfun]

/-- C2: a data descriptor always wins — with any coherent cache state,
evaluate returns the descriptor's value and never the instance value;
and installing a data descriptor on the receiver's own type after a
cache entry was populated makes the very next evaluate return the new
descriptor's value. -/
theorem claim_C2 (env : Env) (site : CallSite) (o : Obj) (t : TypeInfo)
    (vd : Value) (mrest : List Nat)
    (hINV : INV env site)
    (hl : lookupType env o.typeId = some t) (hh : t.getattributeHook = none)
    (hmro : t.mro = o.typeId :: mrest) :
    (∀ v, mroLookup env t.mro site.attrName = some (.dataDescr v) →
      (evaluate env site o).1 = .ok v) ∧
    (evaluate (setTypeAttr env o.typeId site.attrName (.dataDescr vd))
        (evaluate env site o).2.1 o).1 = .ok vd := by
  constructor
  · intro v hmd
    rw [evaluate_fst env site o hINV]
    exact groundTruth_data env o t site.attrName v hl hh hmd
  · have hINV1 : INV env (evaluate env site o).2.1 := evaluate_INV env site o hINV
    have hINV2 : INV (setTypeAttr env o.typeId site.attrName (.dataDescr vd))
        (evaluate env site o).2.1 :=
      INV_setTypeAttr env (evaluate env site o).2.1 o.typeId site.attrName (.dataDescr vd) hINV1
    have hl2 : lookupType (setTypeAttr env o.typeId site.attrName (.dataDescr vd)) o.typeId =
        some { t with dict := (site.attrName, ClassEntry.dataDescr vd) :: t.dict,
                      versionTag := bumpTag t.versionTag } := by
      rw [lookupType_setTypeAttr, hl]
      simp [bumpType]
    have hmd2 : mroLookup (setTypeAttr env o.typeId site.attrName (.dataDescr vd))
        (o.typeId :: mrest) site.attrName = some (.dataDescr vd) := by
      unfold mroLookup
      rw [hl2]
      simp [List.lookup]
    rw [evaluate_fst _ _ o hINV2, evaluate_attrName]
    refine groundTruth_data _ o _ site.attrName vd hl2 hh ?_
    show mroLookup (setTypeAttr env o.typeId site.attrName (.dataDescr vd)) t.mro site.attrName
        = some (.dataDescr vd)
    rw [hmro]
    exact hmd2

/-- C3: a non-data descriptor is shadowed by instance storage — with any
coherent cache state, evaluate returns the descriptor's value while no
instance attribute is present, and the instance value once it is set. -/
theorem claim_C3 (env : Env) (site : CallSite) (o : Obj) (t : TypeInfo) (v : Value)
    (hINV : INV env site)
    (hl : lookupType env o.typeId = some t) (hh : t.getattributeHook = none)
    (hmd : mroLookup env t.mro site.attrName = some (.nonDataDescr v)) :
    (instanceLookup t o site.attrName = none → (evaluate env site o).1 = .ok v) ∧
    (∀ k w, instanceLookup t o site.attrName = some (k, w) →
      (evaluate env site o).1 = .ok w) := by
  have hnd : isDataDescrOpt (mroLookup env t.mro site.attrName) = false := by
    rw [hmd]
    rfl
  constructor
  · intro hi
    rw [evaluate_fst env site o hINV]
    have hsr : slowResolve env t o site.attrName = some (.nonDataDescriptor v, v) := by
      rw [slowResolve_not_data env t o site.attrName hnd]
      simp only [hi, hmd]
    simp only [groundTruth, hl, hh, hsr]
  · intro k w hi
    rw [evaluate_fst env site o hINV]
    have hsr : slowResolve env t o site.attrName = some (k, w) := by
      rw [slowResolve_not_data env t o site.attrName hnd]
      simp only [hi]
    simp only [groundTruth, hl, hh, hsr]

/-- C4: mutating a type's attribute advances the version tag of that
type and of every live type whose MRO contains it; a guard holding the
old snapshot can never match the bumped tag; and the same, un-recompiled
call site returns the post-mutation ground truth on its next call. -/
theorem claim_C4 (env : Env) (site : CallSite) (o : Obj) (base : Nat)
    (name2 : AttrName) (ce : ClassEntry) (hINV : INV env site) :
    (∀ h th, lookupType env h = some th → (h = base ∨ base ∈ th.mro) →
      ∃ th2, lookupType (setTypeAttr env base name2 ce) h = some th2 ∧
        th2.versionTag = bumpTag th.versionTag) ∧
    (∀ (e : CacheEntry) (h2 : Nat), e.versionTagSnapshot ≠ 0 →
      guardMatch e h2 (bumpTag e.versionTagSnapshot) = false) ∧
    (evaluate (setTypeAttr env base name2 ce) site o).1 =
      groundTruth (setTypeAttr env base name2 ce) o site.attrName := by
  refine ⟨?_, ?_, ?_⟩
  · intro h th hth hcond
    rw [lookupType_setTypeAttr, hth]
    simp only [Option.map_some']
    refine ⟨_, rfl, ?_⟩
    have hmro1 : (if h = base then { th with dict := (name2, ce) :: th.dict } else th).mro
        = th.mro := by
      by_cases hg : h = base <;> simp [hg]
    have hvt1 : (if h = base then { th with dict := (name2, ce) :: th.dict } else th).versionTag
        = th.versionTag := by
      by_cases hg : h = base <;> simp [hg]
    unfold bumpType
    rw [if_pos (by rw [hmro1]; exact hcond)]
    simp [hvt1]
  · intro e h2 hz
    unfold guardMatch
    have h1 : (e.versionTagSnapshot == bumpTag e.versionTagSnapshot) = false :=
      beq_eq_false_iff_ne.mpr (fun he => (bumpTag_ne e.versionTagSnapshot hz) he.symm)
    rw [h1]
    simp
  · exact evaluate_fst _ site o (INV_setTypeAttr env site base name2 ce hINV)

/-- C5: no cache entry with the reserved snapshot 0 is ever written; a
type whose live tag is 0 is a permanent guard miss, and evaluate on it
still takes the slow path and returns the ground truth while leaving the
cache untouched. -/
theorem claim_C5 (env : Env) (site : CallSite) (o : Obj) (t : TypeInfo)
    (hl : lookupType env o.typeId = some t) (hh : t.getattributeHook = none)
    (hz : t.versionTag = 0) :
    (∀ (env2 : Env) (site2 : CallSite) (o2 : Obj) (e2 : CacheEntry),
      e2 ∈ (evaluate env2 site2 o2).2.1.cache.entries →
      e2 ∈ site2.cache.entries ∨ e2.versionTagSnapshot ≠ 0) ∧
    cacheLookup site.cache o.typeId t.versionTag = none ∧
    evaluate env site o = (groundTruth env o site.attrName,
      { site with missCount := site.missCount + 1 }, MISS_COST) := by
  refine ⟨?_, ?_, ?_⟩
  · intro env2 site2 o2 e2 h
    exact evaluate_no_zero_snapshot env2 site2 o2 e2 h
  · rw [hz]
    exact cacheLookup_tag_zero site.cache o.typeId
  · exact evaluate_tag_zero env site o t hl hh hz

/-- C6: evaluate is transparent; it returns a value whenever resolution
succeeds (guard misses are never surfaced), AttributeNotFound exactly
when resolution is Absent and no fallback hook exists or the hook itself
produced it, and a fallback-hook call has its result propagated verbatim
with no cache entry installed. -/
theorem claim_C6 (env : Env) (site : CallSite) (o : Obj) (t : TypeInfo)
    (hINV : INV env site)
    (hl : lookupType env o.typeId = some t) (hh : t.getattributeHook = none) :
    ((evaluate env site o).1 = groundTruth env o site.attrName) ∧
    (∀ k v, slowResolve env t o site.attrName = some (k, v) →
      (evaluate env site o).1 = .ok v) ∧
    (slowResolve env t o site.attrName = none → t.getattrHook = none →
      (evaluate env site o).1 = .error .attributeNotFound) ∧
    (∀ hk, slowResolve env t o site.attrName = none → t.getattrHook = some hk →
      (evaluate env site o).1 = runHook hk site.attrName ∧
      (evaluate env site o).2.1.cache = site.cache) ∧
    ((evaluate env site o).1 = .error .attributeNotFound →
      slowResolve env t o site.attrName = none ∧
      (t.getattrHook = none ∨ ∃ hk, t.getattrHook = some hk ∧
        runHook hk site.attrName = .error .attributeNotFound)) := by
  have gfst := evaluate_fst env site o hINV
  refine ⟨gfst, ?_, ?_, ?_, ?_⟩
  · intro k v hsr
    rw [gfst]
    simp only [groundTruth, hl, hh, hsr]
  · intro hsr hg
    rw [gfst]
    simp only [groundTruth, hl, hh, hsr, hg]
  · intro hk hsr hg
    constructor
    · rw [gfst]
      simp only [groundTruth, hl, hh, hsr, hg]
    · rcases evaluate_cache_cases env site o with hsame | ⟨t2, k, v, hl2, hh2, hz2, hr2, hinst⟩
      · exact hsame
      · have ht : t2 = t := by
          rw [hl] at hl2
          injection hl2 with h4
          exact h4.symm
        subst ht
        rw [hsr] at hr2
        exact absurd hr2 (by simp)
  · intro herr
    rw [gfst] at herr
    cases hsr : slowResolve env t o site.attrName with
    | some kv =>
      obtain ⟨k, v⟩ := kv
      have hok : groundTruth env o site.attrName = .ok v := by
        simp only [groundTruth, hl, hh, hsr]
      rw [hok] at herr
      exact absurd herr (by simp)
    | none =>
      refine ⟨rfl, ?_⟩
      cases hg : t.getattrHook with
      | none => exact Or.inl rfl
      | some hk =>
        right
        refine ⟨hk, rfl, ?_⟩
        have hrh : groundTruth env o site.attrName = runHook hk site.attrName := by
          simp only [groundTruth, hl, hh, hsr, hg]
        rw [hrh] at herr
        exact herr

/-- C7: the cache stores the resolution, never a value snapshot — a cold
call site resolves slowly and installs the resolution kind; a second
call on the same receiver is a guard hit; and after mutating only
instance data (new slot value or wholesale storage replacement) the
guard still matches and the same entry yields the new current value at
hit cost. -/
theorem claim_C7 (env : Env) (name : AttrName) (o o2 : Obj) (t : TypeInfo)
    (k k2 : ResolutionKind) (v v2 : Value)
    (hl : lookupType env o.typeId = some t) (hh : t.getattributeHook = none)
    (hz : t.versionTag ≠ 0)
    (hnd : isDataDescrOpt (mroLookup env t.mro name) = false)
    (hi1 : instanceLookup t o name = some (k, v))
    (ho2 : o2.typeId = o.typeId)
    (hi2 : instanceLookup t o2 name = some (k2, v2)) :
    evaluate env (compileGuardedAccess name) o =
      (.ok v, { attrName := name, cache := .mono ⟨o.typeId, t.versionTag, k⟩, missCount := 1 }, MISS_COST) ∧
    evaluate env { attrName := name, cache := .mono ⟨o.typeId, t.versionTag, k⟩, missCount := 1 } o =
      (.ok v, { attrName := name, cache := .mono ⟨o.typeId, t.versionTag, k⟩, missCount := 1 }, 1) ∧
    evaluate env { attrName := name, cache := .mono ⟨o.typeId, t.versionTag, k⟩, missCount := 1 } o2 =
      (.ok v2, { attrName := name, cache := .mono ⟨o.typeId, t.versionTag, k⟩, missCount := 1 }, 1) := by
  have hsr1 : slowResolve env t o name = some (k, v) := by
    rw [slowResolve_not_data env t o name hnd]
    simp only [hi1]
  have hkk : k2 = k := (instanceLookup_kind_eq t o o2 name k k2 v v2 hi1 hi2).symm
  have hcl : cacheLookup (CacheState.mono ⟨o.typeId, t.versionTag, k⟩) o.typeId t.versionTag
      = some ⟨o.typeId, t.versionTag, k⟩ := by
    unfold cacheLookup CacheState.entries
    apply List.find?_cons_of_pos
    exact (guardMatch_iff ⟨o.typeId, t.versionTag, k⟩ o.typeId t.versionTag).mpr ⟨rfl, rfl, hz⟩
  have hx1 : execEntry t o name k = some v := execEntry_of_instanceLookup t o name k v hi1
  refine ⟨?_, ?_, ?_⟩
  · have hc0 : cacheLookup CacheState.empty o.typeId t.versionTag = none := rfl
    simp [evaluate, compileGuardedAccess, deoptMiss, installEntry, hl, hh, hc0, hsr1, hz]
  · simp only [evaluate, hl, hh, hcl, hx1]
  · have hl3 : lookupType env o2.typeId = some t := by
      rw [ho2]
      exact hl
    have hcl3 : cacheLookup (CacheState.mono ⟨o.typeId, t.versionTag, k⟩) o2.typeId t.versionTag
        = some ⟨o.typeId, t.versionTag, k⟩ := by
      unfold cacheLookup CacheState.entries
      apply List.find?_cons_of_pos
      exact (guardMatch_iff ⟨o.typeId, t.versionTag, k⟩ o2.typeId t.versionTag).mpr
        ⟨ho2.symm, rfl, hz⟩
    have hx3 : execEntry t o2 name k = some v2 := by
      have h5 := execEntry_of_instanceLookup t o2 name k2 v2 hi2
      rw [hkk] at h5
      exact h5
    simp only [evaluate, hl3, hh, hcl3, hx3]

/-- C8: an entry whose referenced type was destroyed can never match a
guard for a live receiver, a cache full of such stale entries simply
falls through to slow-path resolution, and generation ids are never
reused: a freshly created type's id differs from every live id and from
any id allocated earlier. -/
theorem claim_C8 (env : Env) (e : CacheEntry) (o : Obj) (t tnew : TypeInfo)
    (hwf : EnvWF env)
    (hdead : lookupType env e.typeIdentity = none)
    (hlive : lookupType env o.typeId = some t)
    (hh : t.getattributeHook = none) :
    (∀ tag, guardMatch e o.typeId tag = false) ∧
    (∀ site, (∀ e2 ∈ site.cache.entries, lookupType env e2.typeIdentity = none) →
      (evaluate env site o).1 = groundTruth env o site.attrName) ∧
    ((createType env tnew).2 = env.nextGen ∧
      ∀ g2 t2, (g2, t2) ∈ env.types → (createType env tnew).2 ≠ g2) ∧
    (e.typeIdentity < env.nextGen →
      ∀ tag, guardMatch e (createType env tnew).2 tag = false) ∧
    EnvWF (createType env tnew).1 ∧ (∀ g3, EnvWF (destroyType env g3)) := by
  have hne : e.typeIdentity ≠ o.typeId := by
    intro he
    rw [he, hlive] at hdead
    exact absurd hdead (by simp)
  refine ⟨?_, ?_, ?_, ?_, ?_, ?_⟩
  · intro tag
    unfold guardMatch
    rw [beq_eq_false_iff_ne.mpr hne]
    simp
  · intro site hall
    have hcl : cacheLookup site.cache o.typeId t.versionTag = none := by
      unfold cacheLookup
      apply List.find?_eq_none.mpr
      intro e2 he2
      have hne2 : e2.typeIdentity ≠ o.typeId := by
        intro heq
        have h6 := hall e2 he2
        rw [heq, hlive] at h6
        exact absurd h6 (by simp)
      simp [guardMatch, beq_eq_false_iff_ne.mpr hne2]
    simp only [evaluate, hlive, hh, hcl]
    exact deoptMiss_fst env site t o t.versionTag hlive hh
  · refine ⟨rfl, ?_⟩
    intro g2 t2 hmem heq
    have h7 := hwf (g2, t2) hmem
    have h8 : (createType env tnew).2 = env.nextGen := rfl
    rw [h8] at heq
    omega
  · intro hlt tag
    have hne3 : e.typeIdentity ≠ env.nextGen := Nat.ne_of_lt hlt
    unfold guardMatch
    have h9 : (createType env tnew).2 = env.nextGen := rfl
    rw [h9, beq_eq_false_iff_ne.mpr hne3]
    simp
  · intro p hp
    have hp2 : p = (env.nextGen, tnew) ∨ p ∈ env.types := List.mem_cons.mp hp
    rcases hp2 with h10 | h10
    · rw [h10]
      exact Nat.lt_succ_self env.nextGen
    · have := hwf p h10
      exact Nat.lt_succ_of_lt this
  · intro g3 p hp
    have hp2 : p ∈ env.types := List.mem_of_mem_filter hp
    exact hwf p hp2

/-- C9: in the abstract cost model (guard hit 1, miss MISS_COST), a
second block of N calls on the same receiver costs at most twice the
first block, for every N and every starting cache state; and a
polymorphic call site never reverts to a single-type specialisation on
any further miss. -/
theorem claim_C9 (env : Env) (site : CallSite) (o : Obj) (t : TypeInfo)
    (k : ResolutionKind) (v : Value) (N : Nat)
    (hl : lookupType env o.typeId = some t) (hh : t.getattributeHook = none)
    (hz : t.versionTag ≠ 0) (hr : slowResolve env t o site.attrName = some (k, v)) :
    (evalRun env (evalRun env site o N).1 o N).2 ≤ 2 * (evalRun env site o N).2 ∧
    (∀ (site2 : CallSite) (o2 : Obj), site2.cache.isPoly = true →
      ((evaluate env site2 o2).2.1.cache).isPoly = true) := by
  refine ⟨?_, fun site2 o2 h => evaluate_poly_stable env site2 o2 h⟩
  cases N with
  | zero => simp [evalRun]
  | succ m =>
    have hfh : fastHit env (evaluate env site o).2.1 o :=
      fastHit_after env site o t k v hl hh hz hr
    have hrest : evalRun env (evaluate env site o).2.1 o m = ((evaluate env site o).2.1, m) :=
      evalRun_of_fastHit env _ o m hfh
    have hb1 : evalRun env site o (m + 1) =
        ((evaluate env site o).2.1, (evaluate env site o).2.2 + m) := by
      simp only [evalRun, hrest]
    have hb2 : evalRun env (evaluate env site o).2.1 o (m + 1) =
        ((evaluate env site o).2.1, m + 1) :=
      evalRun_of_fastHit env _ o (m + 1) hfh
    have hpos := evaluate_cost_pos env site o
    simp only [hb1, hb2]
    omega

/-- C10: a full interception hook on the receiver's type decides every
read — evaluate returns the hook's result for every attribute name and
every cache state, consulting neither the guard nor the resolver and
leaving the call site untouched. -/
theorem claim_C10 (env : Env) (site : CallSite) (o : Obj) (t : TypeInfo) (hk : Hook)
    (hl : lookupType env o.typeId = some t)
    (hh : t.getattributeHook = some hk) :
    evaluate env site o = (runHook hk site.attrName, site, MISS_COST) := by
  simp only [evaluate, hl, hh]

def wSlotA : TypeInfo := { versionTag := 5, mro := [0], dict := [], layout := .slotted ["x"] }

def wSlotB : TypeInfo := { versionTag := 7, mro := [1], dict := [], layout := .slotted ["x"] }

def wEnvAB : Env := { types := [(0, wSlotA), (1, wSlotB)], nextGen := 2 }

def wObjA : Obj := { typeId := 0, slots := [some (Value.int 100)], dict := [] }

def wObjB : Obj := { typeId := 1, slots := [some (Value.int 200)], dict := [] }

theorem claim_C1_witness :
    (evalSeq wEnvAB (compileGuardedAccess "x")
        ([true, false, true, false].map (fun c => if c then wObjA else wObjB))).1 =
      [true, false, true, false].map
        (fun c => if c then Except.ok (Value.int 100) else Except.ok (Value.int 200)) ∧
    INV wEnvAB (evalSeq wEnvAB (compileGuardedAccess "x")
        ([true, false, true, false].map (fun c => if c then wObjA else wObjB))).2 :=
  claim_C1 wEnvAB (compileGuardedAccess "x") 0 1 wSlotA wSlotB wObjA wObjB
    (Value.int 100) (Value.int 200) [true, false, true, false]
    (INV_empty wEnvAB "x") (by decide) rfl rfl rfl rfl rfl rfl rfl rfl rfl rfl rfl rfl

def wDescrT : TypeInfo :=
  { versionTag := 3, mro := [0], dict := [("x", .dataDescr (.int 999))], layout := .dicted }

def wEnvD : Env := { types := [(0, wDescrT)], nextGen := 1 }

def wObjD : Obj := { typeId := 0, slots := [], dict := [("x", .int 42)] }

theorem claim_C2_witness :
    (evaluate wEnvD (compileGuardedAccess "x") wObjD).1 = .ok (.int 999) ∧
    (evaluate (setTypeAttr wEnvD 0 "x" (.dataDescr (.int 555)))
        (evaluate wEnvD (compileGuardedAccess "x") wObjD).2.1 wObjD).1 = .ok (.int 555) :=
  ⟨(claim_C2 wEnvD (compileGuardedAccess "x") wObjD wDescrT (Value.int 555) []
      (INV_empty wEnvD "x") rfl rfl rfl).1 (.int 999) rfl,
   (claim_C2 wEnvD (compileGuardedAccess "x") wObjD wDescrT (Value.int 555) []
      (INV_empty wEnvD "x") rfl rfl rfl).2⟩

def wNdT : TypeInfo :=
  { versionTag := 4, mro := [0], dict := [("x", .nonDataDescr (.str "d"))], layout := .dicted }

def wEnvN : Env := { types := [(0, wNdT)], nextGen := 1 }

def wObjN0 : Obj := { typeId := 0, slots := [], dict := [] }

def wObjN1 : Obj := { typeId := 0, slots := [], dict := [("x", .str "i")] }

theorem claim_C3_witness :
    (evaluate wEnvN (compileGuardedAccess "x") wObjN0).1 = .ok (.str "d") ∧
    (evaluate wEnvN (compileGuardedAccess "x") wObjN1).1 = .ok (.str "i") :=
  ⟨(claim_C3 wEnvN (compileGuardedAccess "x") wObjN0 wNdT (Value.str "d")
      (INV_empty wEnvN "x") rfl rfl rfl).1 rfl,
   (claim_C3 wEnvN (compileGuardedAccess "x") wObjN1 wNdT (Value.str "d")
      (INV_empty wEnvN "x") rfl rfl rfl).2 .instanceDict (.str "i") rfl⟩

def wBase : TypeInfo :=
  { versionTag := 2, mro := [0], dict := [("a", .plain (.int 10))], layout := .dicted }

def wDerived : TypeInfo := { versionTag := 9, mro := [1, 0], dict := [], layout := .dicted }

def wEnvBD : Env := { types := [(0, wBase), (1, wDerived)], nextGen := 2 }

def wObjDer : Obj := { typeId := 1, slots := [], dict := [] }

theorem claim_C4_witness :
    (∃ th2, lookupType (setTypeAttr wEnvBD 0 "a" (.plain (.int 20))) 1 = some th2 ∧
      th2.versionTag = bumpTag 9) ∧
    guardMatch ⟨1, 9, .classAttribute (.int 10)⟩ 1 (bumpTag 9) = false ∧
    (evaluate (setTypeAttr wEnvBD 0 "a" (.plain (.int 20)))
        (compileGuardedAccess "a") wObjDer).1 = .ok (.int 20) :=
  ⟨(claim_C4 wEnvBD (compileGuardedAccess "a") wObjDer 0 "a" (.plain (.int 20))
      (INV_empty wEnvBD "a")).1 1 wDerived rfl (Or.inr (by decide)),
   (claim_C4 wEnvBD (compileGuardedAccess "a") wObjDer 0 "a" (.plain (.int 20))
      (INV_empty wEnvBD "a")).2.1 ⟨1, 9, .classAttribute (.int 10)⟩ 1 (by decide),
   ((claim_C4 wEnvBD (compileGuardedAccess "a") wObjDer 0 "a" (.plain (.int 20))
      (INV_empty wEnvBD "a")).2.2).trans (by decide)⟩

def wZeroT : TypeInfo :=
  { versionTag := 0, mro := [0], dict := [("x", .plain (.int 7))], layout := .dicted }

def wEnvZ : Env := { types := [(0, wZeroT)], nextGen := 1 }

def wObjZ : Obj := { typeId := 0, slots := [], dict := [] }

theorem claim_C5_witness :
    (∀ (env2 : Env) (site2 : CallSite) (o2 : Obj) (e2 : CacheEntry),
      e2 ∈ (evaluate env2 site2 o2).2.1.cache.entries →
      e2 ∈ site2.cache.entries ∨ e2.versionTagSnapshot ≠ 0) ∧
    cacheLookup (compileGuardedAccess "x").cache wObjZ.typeId wZeroT.versionTag = none ∧
    evaluate wEnvZ (compileGuardedAccess "x") wObjZ =
      (groundTruth wEnvZ wObjZ "x",
        { attrName := "x", cache := CacheState.empty, missCount := 1 }, MISS_COST) :=
  claim_C5 wEnvZ (compileGuardedAccess "x") wObjZ wZeroT rfl rfl rfl

def wPlainT : TypeInfo := { versionTag := 6, mro := [0], dict := [], layout := .dicted }

def wHookT : TypeInfo :=
  { versionTag := 6, mro := [1], dict := [], layout := .dicted,
    getattrHook := some (.returnsName "fallback_") }

def wEnvC6 : Env := { types := [(0, wPlainT), (1, wHookT)], nextGen := 2 }

def wObjP : Obj := { typeId := 0, slots := [], dict := [] }

def wObjH : Obj := { typeId := 1, slots := [], dict := [] }

theorem claim_C6_witness :
    (evaluate wEnvC6 (compileGuardedAccess "x") wObjP).1 = .error .attributeNotFound ∧
    (evaluate wEnvC6 (compileGuardedAccess "x") wObjH).1 = .ok (.str "fallback_x") ∧
    (evaluate wEnvC6 (compileGuardedAccess "x") wObjH).2.1.cache =
      (compileGuardedAccess "x").cache :=
  ⟨(claim_C6 wEnvC6 (compileGuardedAccess "x") wObjP wPlainT
      (INV_empty wEnvC6 "x") rfl rfl).2.2.1 rfl rfl,
   ((claim_C6 wEnvC6 (compileGuardedAccess "x") wObjH wHookT
      (INV_empty wEnvC6 "x") rfl rfl).2.2.2.1 (.returnsName "fallback_") rfl rfl).1,
   ((claim_C6 wEnvC6 (compileGuardedAccess "x") wObjH wHookT
      (INV_empty wEnvC6 "x") rfl rfl).2.2.2.1 (.returnsName "fallback_") rfl rfl).2⟩

def wC7T : TypeInfo := { versionTag := 8, mro := [0], dict := [], layout := .dicted }

def wEnvC7 : Env := { types := [(0, wC7T)], nextGen := 1 }

def wObjC7a : Obj := { typeId := 0, slots := [], dict := [("x", .int 10)] }

def wObjC7b : Obj := { typeId := 0, slots := [], dict := [("x", .int 20)] }

theorem claim_C7_witness :
    evaluate wEnvC7 (compileGuardedAccess "x") wObjC7a =
      (.ok (.int 10), { attrName := "x", cache := .mono ⟨0, 8, .instanceDict⟩, missCount := 1 }, MISS_COST) ∧
    evaluate wEnvC7 { attrName := "x", cache := .mono ⟨0, 8, .instanceDict⟩, missCount := 1 } wObjC7a =
      (.ok (.int 10), { attrName := "x", cache := .mono ⟨0, 8, .instanceDict⟩, missCount := 1 }, 1) ∧
    evaluate wEnvC7 { attrName := "x", cache := .mono ⟨0, 8, .instanceDict⟩, missCount := 1 } wObjC7b =
      (.ok (.int 20), { attrName := "x", cache := .mono ⟨0, 8, .instanceDict⟩, missCount := 1 }, 1) :=
  claim_C7 wEnvC7 "x" wObjC7a wObjC7b wC7T .instanceDict .instanceDict (.int 10) (.int 20)
    rfl rfl (by decide) rfl rfl rfl rfl

def wEnvC8 : Env := { types := [(1, wSlotB)], nextGen := 2 }

theorem claim_C8_witness :
    (∀ tag, guardMatch ⟨0, 5, .instanceSlot 0⟩ wObjB.typeId tag = false) ∧
    (∀ site, (∀ e2 ∈ site.cache.entries, lookupType wEnvC8 e2.typeIdentity = none) →
      (evaluate wEnvC8 site wObjB).1 = groundTruth wEnvC8 wObjB site.attrName) ∧
    ((createType wEnvC8 wSlotA).2 = wEnvC8.nextGen ∧
      ∀ g2 t2, (g2, t2) ∈ wEnvC8.types → (createType wEnvC8 wSlotA).2 ≠ g2) ∧
    ((0 : Nat) < wEnvC8.nextGen →
      ∀ tag, guardMatch ⟨0, 5, .instanceSlot 0⟩ (createType wEnvC8 wSlotA).2 tag = false) ∧
    EnvWF (createType wEnvC8 wSlotA).1 ∧ (∀ g3, EnvWF (destroyType wEnvC8 g3)) :=
  claim_C8 wEnvC8 ⟨0, 5, .instanceSlot 0⟩ wObjB wSlotB wSlotA
    (by
      intro p hp
      simp only [wEnvC8] at hp
      rw [List.mem_singleton] at hp
      rw [hp]
      decide)
    rfl rfl rfl

theorem claim_C9_witness :
    (evalRun wEnvAB (evalRun wEnvAB (compileGuardedAccess "x") wObjA 3).1 wObjA 3).2 ≤
      2 * (evalRun wEnvAB (compileGuardedAccess "x") wObjA 3).2 ∧
    (∀ (site2 : CallSite) (o2 : Obj), site2.cache.isPoly = true →
      ((evaluate wEnvAB site2 o2).2.1.cache).isPoly = true) :=
  claim_C9 wEnvAB (compileGuardedAccess "x") wObjA wSlotA (.instanceSlot 0) (.int 100) 3
    rfl rfl (by decide) rfl

def wHookAllT : TypeInfo :=
  { versionTag := 2, mro := [0], dict := [], layout := .dicted,
    getattributeHook := some (.returns (.str "intercepted")) }

def wEnvC10 : Env := { types := [(0, wHookAllT)], nextGen := 1 }

def wObjC10 : Obj := { typeId := 0, slots := [], dict := [("x", .int 42)] }

theorem claim_C10_witness :
    evaluate wEnvC10 (compileGuardedAccess "x") wObjC10 =
      (.ok (.str "intercepted"), compileGuardedAccess "x", MISS_COST) :=
  claim_C10 wEnvC10 (compileGuardedAccess "x") wObjC10 wHookAllT
    (.returns (.str "intercepted")) rfl rfl

end LoadAttrCache
